import Mathlib

/-!
Verification of the `gemfile_downloader` crate against its specification.

The Rust sources are shallowly embedded: strings are `List Char`, filesystem
paths are lists of components (`Path::join` is list append), fallible Rust
functions returning `Result` become `Except`, and the external collaborators
(HTTP transport, the tar and gzip codecs, the remote version lookup) are
explicit function parameters, as the specification treats them.
-/

/-- Filesystem paths, modelled as the list of their components.
`Path::join` of a single component is `++ [component]`. -/
abbrev FsPath := List (List Char)

/-- The apostrophe character (U+0027), used by `parser.rs` in
`.replace("'", "")`. -/
def apostropheChar : Char := Char.ofNat 39

/-- The double-quote character (U+0022), used by `parser.rs` in
`.replace("\x22", "")`. -/
def quoteChar : Char := Char.ofNat 34

/-- Embedding of `parser.rs` `struct Gem`: the name and version of one gem. -/
structure Gem where
  name : List Char
  version : List Char
deriving Repr, DecidableEq

/-- Embedding of `parser.rs` `struct GemfileData`: the download source and the
list of gems of a parsed Gemfile. -/
structure GemfileData where
  source : List Char
  gems : List Gem
deriving Repr, DecidableEq

/-- Embedding of Rust `str::replace(pat, "")` as used throughout
`GemfileData::parse`: delete every (left-to-right, non-overlapping)
occurrence of `pat`.  For an empty pattern Rust's `replace` with an empty
replacement returns the string unchanged, which the guard reproduces. -/
def removeAllFuel (pat : List Char) : Nat → List Char → List Char
  | 0, l => l
  | _ + 1, [] => []
  | fuel + 1, c :: rest =>
    if pat.isPrefixOf (c :: rest) && !pat.isEmpty then
      removeAllFuel pat fuel (rest.drop (pat.length - 1))
    else
      c :: removeAllFuel pat fuel rest

/-- Rust `str::replace(pat, "")` proper: the fuel (one unit per character of
the input, while each step consumes at least one character) is always
sufficient, and makes the definition structurally recursive. -/
def removeAll (pat l : List Char) : List Char :=
  removeAllFuel pat l.length l

/-- Embedding of Rust `str::split(sep)` on a single separator character:
always yields at least one (possibly empty) piece. -/
def splitOnChar (sep : Char) : List Char → List (List Char)
  | [] => [[]]
  | c :: rest =>
    if c == sep then
      [] :: splitOnChar sep rest
    else
      match splitOnChar sep rest with
      | [] => [[c]]
      | t :: ts => (c :: t) :: ts

/-- Strip one trailing carriage return, as Rust `str::lines` does to each
line when the input uses CRLF endings. -/
def stripCR (l : List Char) : List Char :=
  match l.getLast? with
  | some c => if c == '\r' then l.dropLast else l
  | none => l

/-- Embedding of Rust `str::lines`: split on newline, drop the empty piece a
trailing newline would produce, strip one trailing carriage return per line. -/
def rustLines (s : List Char) : List (List Char) :=
  let parts := splitOnChar '\n' s
  let kept :=
    match parts.getLast? with
    | some [] => parts.dropLast
    | _ => parts
  kept.map stripCR

/-- Match `[0-9]+\.[0-9]+\.[0-9]+`: consume one-or-more digits, a dot,
one-or-more digits, a dot, one-or-more digits, at the head of the list.
Maximal munch of `[0-9]+` is equivalent to the regex engine here because a
dot is never a digit, so no backtracking can help. -/
def dropDigits1 : List Char → Option (List Char)
  | [] => none
  | c :: rest => if c.isDigit then some (rest.dropWhile Char.isDigit) else none

/-- Whether `[0-9]+\.[0-9]+\.[0-9]+` matches at the head of the list. -/
def matchVersionAt (l : List Char) : Bool :=
  match dropDigits1 l with
  | none => false
  | some r1 =>
    match r1 with
    | '.' :: r2 =>
      match dropDigits1 r2 with
      | none => false
      | some r3 =>
        match r3 with
        | '.' :: r4 => (dropDigits1 r4).isSome
        | _ => false
    | _ => false

/-- Embedding of `Regex::new("[0-9]+\\.[0-9]+\\.[0-9]+").is_match(s)` from
`parser.rs`: true when the pattern matches at some position, i.e. `is_match`
is a containment test, not an anchored whole-string match. -/
def containsVersion : List Char → Bool
  | [] => false
  | c :: rest => matchVersionAt (c :: rest) || containsVersion rest

/-- The `"gem "` directive keyword of `parser.rs`. -/
def gemKeyword : List Char := ("gem ").toList

/-- The `"source "` directive keyword of `parser.rs`. -/
def sourceKeyword : List Char := ("source ").toList

/-- The default source hard-coded in `GemfileData::parse`. -/
def defaultSource : List Char := ("https://rubygems.org").toList

/-- The leading-whitespace stripping loop of `GemfileData::parse`: it chops
characters off the front only while the line starts with `" "` (a space),
so it strips spaces and nothing else. -/
def stripLine (l : List Char) : List Char := l.dropWhile (fun c => c == ' ')

/-- The cleanup of a recognized `source` line in `GemfileData::parse`:
`.replace("source ", "").replace("\x22", "").replace("'", "")`. -/
def sourceTrim (l : List Char) : List Char :=
  removeAll [apostropheChar] (removeAll [quoteChar] (removeAll sourceKeyword l))

/-- The cleanup of a recognized `gem` line in `GemfileData::parse`:
`.replace("gem ", "").replace("\x22", "").replace("~>", "")
.replace(" ", "").replace("\x22", "").replace("'", "")`, innermost applied
first, in the source's order. -/
def gemTrim (l : List Char) : List Char :=
  removeAll [apostropheChar]
    (removeAll [quoteChar]
      (removeAll [' ']
        (removeAll (("~>").toList)
          (removeAll [quoteChar]
            (removeAll gemKeyword l)))))

/-- The external version-lookup collaborator `GemVersion::get_version`
(a registry HTTP GET plus JSON decode), abstracted as the specification
directs: it takes the source and the gem name and yields a version or an
error. -/
abbrev Lookup := List Char → List Char → Except (List Char) (List Char)

/-- The pin test of `GemfileData::parse`: the gem is pinned exactly when a
second comma token exists and the version regex matches somewhere inside it,
in which case that whole token is the version. -/
def pinnedVersion? (tokens : List (List Char)) : Option (List Char) :=
  match tokens with
  | s1 :: _ => if containsVersion s1 then some s1 else none
  | [] => none

/-- The per-line loop of `GemfileData::parse` over the remaining lines,
carrying the current `source` and the gems accumulated so far.  A `source`
line updates the source (a line cannot also be a `gem` line); a `gem` line
is trimmed, split on commas, and either pushed with its pinned version or
resolved through the lookup collaborator, whose error aborts the whole
parse; every other line is ignored. -/
def parseLines (lookup : Lookup) (source : List Char) (gems : List Gem) :
    List (List Char) → Except (List Char) (List Char × List Gem)
  | [] => Except.ok (source, gems)
  | line :: rest =>
    let l := stripLine line
    let source2 := if sourceKeyword.isPrefixOf l then sourceTrim l else source
    if gemKeyword.isPrefixOf l then
      match splitOnChar ',' (gemTrim l) with
      | [] => parseLines lookup source2 gems rest
      | s0 :: srest =>
        match pinnedVersion? srest with
        | some v => parseLines lookup source2 (gems ++ [⟨s0, v⟩]) rest
        | none =>
          match lookup source2 s0 with
          | Except.error e => Except.error e
          | Except.ok v => parseLines lookup source2 (gems ++ [⟨s0, v⟩]) rest
    else
      parseLines lookup source2 gems rest

/-- Embedding of `GemfileData::parse` from `parser.rs`: run the per-line
loop over `str::lines` of the input, starting from the default source and no
gems. -/
def GemfileData.parse (lookup : Lookup) (data : List Char) :
    Except (List Char) GemfileData :=
  match parseLines lookup defaultSource [] (rustLines data) with
  | Except.error e => Except.error e
  | Except.ok (src, gems) => Except.ok ⟨src, gems⟩

/-- The manifest of the pinned-version scenario:
`source "https://example.test"` then `gem "alpha", "~> 1.2.3"`. -/
def scenarioManifest : List Char :=
  ("source \"https://example.test\"\ngem \"alpha\", \"~> 1.2.3\"").toList

/-- A lookup collaborator that fails loudly; any parse that succeeds against
it has provably never consulted the collaborator. -/
def lookupTrap : Lookup := fun _ _ => Except.error (("lookup was called").toList)

/-- An HTTP response as the transport collaborator delivers it: a status
code and the body bytes. -/
structure HttpResponse where
  status : Nat
  body : List Nat
deriving Repr, DecidableEq

/-- The HTTP transport collaborator (`reqwest::get`), abstracted as the
specification directs: a function from URL to response. -/
abbrev Http := List Char → HttpResponse

/-- The download URL of `download.rs`:
`format!("{}/downloads/{}-{}.gem", source, gem.name, gem.version)`. -/
def downloadUrl (source : List Char) (gem : Gem) : List Char :=
  source ++ ("/downloads/").toList ++ gem.name ++ ('-' :: gem.version)
    ++ (".gem").toList

/-- The local file name of `download.rs`:
`format!("{}-{}.gem", gem.name, gem.version)`. -/
def downloadFilename (gem : Gem) : List Char :=
  gem.name ++ ('-' :: gem.version) ++ (".gem").toList

/-- Embedding of `download_gem` from `download.rs`: fetch the download URL;
a status other than 200 is the error `Failed to download`; otherwise the
body is written to `directory/filename` and that path is returned.  The
filesystem writes and directory creation are side effects outside the data
flow; transport-level failures are likewise outside this embedding, which
the claims about status codes do not need. -/
def download_gem (http : Http) (directory : FsPath) (source : List Char)
    (gem : Gem) : Except (List Char) FsPath :=
  if (http (downloadUrl source gem)).status ≠ 200 then
    Except.error (("Failed to download").toList)
  else
    Except.ok (directory ++ [downloadFilename gem])

/-- The portion of a file name before its final dot. -/
def beforeLastDot (s : List Char) : List Char :=
  ((s.reverse.dropWhile (fun c => !(c == '.'))).drop 1).reverse

/-- Rust `file_stem` on a file name: the whole name when it has no dot, or
when it starts with a dot and has no further dot; otherwise the portion
before the final dot. -/
def stemOf (s : List Char) : List Char :=
  if !(s.contains '.') then s
  else if s.headD ' ' == '.' && !((s.drop 1).contains '.') then s
  else beforeLastDot s

/-- Rust `Path::file_stem`: the stem of the last path component. -/
def fileStem (p : FsPath) : Option (List Char) :=
  p.getLast?.map stemOf

/-- The fixed inner-archive entry name of `unpack_gem.rs`
(`GEM_DATA_FILE`). -/
def gemDataFile : List Char := ("data.tar.gz").toList

/-- The tar codec collaborator for the outer `.gem` archive: the list of
relative entry paths of the archive stored at a path, or a read/decode
error.  After the destructive reset of the target directory the files under
it are exactly these entries, so a file exists directly under the directory
exactly when it is one of them. -/
abbrev ArchiveEntries := FsPath → Except (List Char) (List FsPath)

/-- Embedding of `unpack_gem` from `unpack_gem.rs`: reset the directory,
unpack the outer archive into it, then return `directory/data.tar.gz` if
that entry now exists and the error `data.tar.gz not found` otherwise. -/
def unpack_gem (archiveEntries : ArchiveEntries) (path directory : FsPath) :
    Except (List Char) FsPath :=
  match archiveEntries path with
  | Except.error e => Except.error e
  | Except.ok entries =>
    if entries.contains [gemDataFile] then
      Except.ok (directory ++ [gemDataFile])
    else
      Except.error (("data.tar.gz not found").toList)

/-- The embedded-manifest file name looked for by `unpack_tar_gz.rs`. -/
def gemfileFileName : List Char := ("Gemfile").toList

/-- The tar codec collaborator for the decompressed inner tar stream, read
entry by entry; a decode or per-entry I/O failure is the error case and
aborts the whole extraction. -/
abbrev TarEntries := FsPath → Except (List Char) (List FsPath)

/-- Embedding of `unpack_gz` from `unpack_tar_gz.rs`: the decompressed tar
is written to `directory/<stem of the gz file name>`; a path with no file
stem is an error. -/
def unpack_gz (gz_path directory : FsPath) : Except (List Char) FsPath :=
  match fileStem gz_path with
  | none => Except.error ((".gz file has not stem").toList)
  | some st => Except.ok (directory ++ [st])

/-- Embedding of `unpack_tar` from `unpack_tar_gz.rs`: iterate the entries
in order, unpacking each to `directory/<entry path>`; whenever the file name
of that destination equals `Gemfile`, remember the destination (so the last
such entry wins); return the remembered path, if any. -/
def unpack_tar (tarEntries : TarEntries) (tar_path directory : FsPath) :
    Except (List Char) (Option FsPath) :=
  match tarEntries tar_path with
  | Except.error e => Except.error e
  | Except.ok entries =>
    Except.ok (entries.foldl
      (fun acc entry =>
        match (directory ++ entry).getLast? with
        | some fname =>
          if fname == gemfileFileName then some (directory ++ entry) else acc
        | none => acc)
      none)

/-- Embedding of `unpack_tar_gz` from `unpack_tar_gz.rs`: decompress, then
unpack the resulting tar. -/
def unpack_tar_gz (tarEntries : TarEntries)
    (tar_gz_path cache_directory directory : FsPath) :
    Except (List Char) (Option FsPath) :=
  match unpack_gz tar_gz_path cache_directory with
  | Except.error e => Except.error e
  | Except.ok tar_file_path => unpack_tar tarEntries tar_file_path directory

/-- Embedding of `lib.rs` `struct FindGemFileInfo`. -/
structure FindGemFileInfo where
  gem_name : List Char
  gemfile_path : FsPath
deriving Repr, DecidableEq

/-- Embedding of `lib.rs` `struct InstallInfo`. -/
structure InstallInfo where
  install_gems : List (List Char)
  find_gemfiles : List FindGemFileInfo
deriving Repr, DecidableEq

/-- The bundle of external collaborators a run of the installer consumes. -/
structure Collabs where
  http : Http
  archiveEntries : ArchiveEntries
  tarEntries : TarEntries

/-- What one per-package pipeline pushes into the two shared vectors of
`install_gems`: nothing when a stage fails, otherwise one installed name and
at most one discovered-Gemfile record. -/
structure TaskResult where
  installed : List (List Char)
  gemfiles : List FindGemFileInfo
deriving Repr, DecidableEq

/-- The per-package pipeline closure of `install_gems` in `lib.rs`:
download; take the file stem of the downloaded path as `gem_name`; unpack
the outer archive into `cache_directory/gem_name`; unpack the inner archive
into `install_dictionary/gem_name`; a failure at any stage returns without
pushing anything, and on success the pipeline pushes `gem_name` to the
installed list and, when a Gemfile was discovered, one record to the
gemfiles list. -/
def gemTask (C : Collabs) (install_dictionary cache_directory : FsPath)
    (source : List Char) (gem : Gem) : TaskResult :=
  match download_gem C.http cache_directory source gem with
  | Except.error _ => ⟨[], []⟩
  | Except.ok download_result =>
    match fileStem download_result with
    | none => ⟨[], []⟩
    | some gem_name =>
      match unpack_gem C.archiveEntries download_result
          (cache_directory ++ [gem_name]) with
      | Except.error _ => ⟨[], []⟩
      | Except.ok gz_result =>
        match unpack_tar_gz C.tarEntries gz_result
            (cache_directory ++ [gem_name])
            (install_dictionary ++ [gem_name]) with
        | Except.error _ => ⟨[], []⟩
        | Except.ok tar_gz_result =>
          { installed := [gem_name]
            gemfiles :=
              match tar_gz_result with
              | some gemfile => [⟨gem_name, gemfile⟩]
              | none => [] }

/-- Success of one per-package pipeline: every stage returns `ok`. -/
def taskOk (C : Collabs) (install_dictionary cache_directory : FsPath)
    (source : List Char) (gem : Gem) : Bool :=
  match download_gem C.http cache_directory source gem with
  | Except.error _ => false
  | Except.ok download_result =>
    match fileStem download_result with
    | none => false
    | some gem_name =>
      match unpack_gem C.archiveEntries download_result
          (cache_directory ++ [gem_name]) with
      | Except.error _ => false
      | Except.ok gz_result =>
        match unpack_tar_gz C.tarEntries gz_result
            (cache_directory ++ [gem_name])
            (install_dictionary ++ [gem_name]) with
        | Except.error _ => false
        | Except.ok _ => true

/-- Embedding of `install_gems` from `lib.rs`.  All per-package pipelines
run concurrently and push into two mutex-guarded vectors; a push appends
atomically, so each final vector is the concatenation of the per-task
contributions in the order the tasks acquired that vector's lock.  The two
completion orders `orderInstalled` and `orderGemfiles` (lists of task
indices, a permutation of the task indices in any real schedule) make that
nondeterminism explicit: the claims are proved for every completion order.
`Arc::try_unwrap` after `join_all` always succeeds, so the function is
total. -/
def install_gems (C : Collabs) (orderInstalled orderGemfiles : List Nat)
    (gemfile_data : GemfileData)
    (install_dictionary cache_directory : FsPath) : InstallInfo :=
  let results := gemfile_data.gems.map
    (gemTask C install_dictionary cache_directory gemfile_data.source)
  { install_gems :=
      (orderInstalled.map (fun i => (results.getD i ⟨[], []⟩).installed)).flatten
    find_gemfiles :=
      (orderGemfiles.map (fun i => (results.getD i ⟨[], []⟩).gemfiles)).flatten }

/-- A transport collaborator that answers 404 to everything. -/
def http404 : Http := fun _ => ⟨404, []⟩

/-- A tar collaborator with one nested `lib/Gemfile` entry and one other
entry. -/
def tarExample : TarEntries :=
  fun _ => Except.ok [[("lib").toList, gemfileFileName], [("x").toList]]

/-- A collaborator bundle whose outer archive lacks `data.tar.gz`. -/
def collabsNoData : Collabs :=
  ⟨fun _ => ⟨200, []⟩, fun _ => Except.ok [], fun _ => Except.ok []⟩

/-- A collaborator bundle for which every pipeline succeeds and the inner
tar carries a nested `lib/Gemfile`. -/
def collabsHappy : Collabs :=
  ⟨fun _ => ⟨200, []⟩, fun _ => Except.ok [[gemDataFile]],
   fun _ => Except.ok [[("lib").toList, gemfileFileName]]⟩

/-- A one-gem manifest for the concrete runs. -/
def gdExample : GemfileData :=
  ⟨("https://example.test").toList, [⟨("alpha").toList, ("1.2.3").toList⟩]⟩

/-- The install directory of the concrete runs. -/
def instDir : FsPath := [("inst").toList]

/-- The cache directory of the concrete runs. -/
def cacheDir : FsPath := [("cache").toList]

/-- A gem directive line can never also be a source directive line: the two
keywords differ at their first character. -/
theorem gem_not_source (l : List Char)
    (h : gemKeyword.isPrefixOf l = true) :
    sourceKeyword.isPrefixOf l = false := by
  cases l with
  | nil => exact absurd h (by decide)
  | cons c rest =>
    have hg : (Char.ofNat 103 == c) = true :=
      (Bool.and_eq_true_iff.mp h).1
    have hc : Char.ofNat 103 = c := eq_of_beq hg
    cases hc
    rfl

/-- Stripping leading spaces ignores any run of prepended spaces. -/
theorem stripLine_replicate (n : Nat) (l : List Char) :
    stripLine (List.replicate n ' ' ++ l) = stripLine l := by
  induction n with
  | zero => rfl
  | succ k ih =>
    rw [List.replicate_succ, List.cons_append]
    show stripLine (List.replicate k ' ' ++ l) = stripLine l
    exact ih

/-- Running the line loop over a concatenation threads the state of the first
part into the second, and an error in the first part is final. -/
theorem parseLines_append (lookup : Lookup) (source : List Char)
    (gems : List Gem) (pre suf : List (List Char)) :
    parseLines lookup source gems (pre ++ suf)
      = match parseLines lookup source gems pre with
        | Except.ok (s2, g2) => parseLines lookup s2 g2 suf
        | Except.error e => Except.error e := by
  induction pre generalizing source gems with
  | nil => simp [parseLines]
  | cons line rest ih =>
    simp only [List.cons_append, parseLines]
    split
    · split
      · exact ih _ _
      · split
        · exact ih _ _
        · split
          · rfl
          · exact ih _ _
    · exact ih _ _

/-- Processing one unpinned gem line consults the lookup collaborator; its
error is returned as the whole result, the remaining lines untouched. -/
theorem parseLines_unpinned_error (lookup : Lookup) (source : List Char)
    (gems : List Gem) (line : List Char) (rest : List (List Char))
    (s0 : List Char) (t : List (List Char)) (e : List Char)
    (hgem : gemKeyword.isPrefixOf (stripLine line) = true)
    (hsplit : splitOnChar ',' (gemTrim (stripLine line)) = s0 :: t)
    (hnopin : pinnedVersion? t = none)
    (hlookup : lookup source s0 = Except.error e) :
    parseLines lookup source gems (line :: rest) = Except.error e := by
  have hs := gem_not_source _ hgem
  simp [parseLines, hs, hgem, hsplit, hnopin, hlookup]

/-- Claim C3: the two-line manifest parses, for every lookup collaborator
alike (so the collaborator is never consulted), to source
`https://example.test` and the single gem `alpha` pinned at `1.2.3`. -/
theorem parse_scenario_example_test (lookup : Lookup) :
    GemfileData.parse lookup scenarioManifest
      = Except.ok ⟨("https://example.test").toList,
          [⟨("alpha").toList, ("1.2.3").toList⟩]⟩ := rfl

/-- Claim C2, counterexample: the token `1.2.3.4` does not match
`\d+\.\d+\.\d+` as a whole, so under the claim the gem would be unpinned and
the (here always-failing) lookup collaborator would be consulted, making the
parse fail.  Instead the parse succeeds with `1.2.3.4` itself recorded as
the pinned version: `is_match` is a containment test. -/
theorem pin_whole_match_counterexample :
    GemfileData.parse lookupTrap (("gem \"a\", \"1.2.3.4\"").toList)
      = Except.ok ⟨defaultSource, [⟨("a").toList, ("1.2.3.4").toList⟩]⟩ := rfl

/-- Claim C2 (amended): for a recognized gem directive line whose
comma-split has a second token, the parser pins exactly when the version
pattern `\d+\.\d+\.\d+` matches somewhere inside that token; when it does,
the whole token is recorded verbatim as the version and the step is the same
for every lookup collaborator (the collaborator is not consulted); when it
does not, the step consults the collaborator with the first token. -/
theorem gem_line_pin_iff_contains (source : List Char)
    (gems : List Gem) (line : List Char) (rest : List (List Char))
    (s0 s1 : List Char) (t : List (List Char))
    (hgem : gemKeyword.isPrefixOf (stripLine line) = true)
    (hsplit : splitOnChar ',' (gemTrim (stripLine line)) = s0 :: s1 :: t) :
    (containsVersion s1 = true →
      ∀ lookup : Lookup,
        parseLines lookup source gems (line :: rest)
          = parseLines lookup source (gems ++ [⟨s0, s1⟩]) rest) ∧
    (containsVersion s1 = false →
      ∀ lookup : Lookup,
        parseLines lookup source gems (line :: rest)
          = match lookup source s0 with
            | Except.error e => Except.error e
            | Except.ok v => parseLines lookup source (gems ++ [⟨s0, v⟩]) rest) := by
  have hs := gem_not_source _ hgem
  constructor
  · intro hver lookup
    simp [parseLines, hs, hgem, hsplit, pinnedVersion?, hver]
  · intro hver lookup
    simp [parseLines, hs, hgem, hsplit, pinnedVersion?, hver]

/-- Witness for the amended claim C2, at the line `gem "a", "1.2.3"` (pinned
branch) and `gem "b", "beta"` (unpinned branch). -/
theorem gem_line_pin_iff_contains_witness :
    (parseLines lookupTrap defaultSource [] [("gem \"a\", \"1.2.3\"").toList]
        = parseLines lookupTrap defaultSource
            [⟨("a").toList, ("1.2.3").toList⟩] []) ∧
    (parseLines lookupTrap defaultSource [] [("gem \"b\", \"beta\"").toList]
        = match lookupTrap defaultSource (("b").toList) with
          | Except.error e => Except.error e
          | Except.ok v =>
              parseLines lookupTrap defaultSource [⟨("b").toList, v⟩] []) :=
  ⟨(gem_line_pin_iff_contains defaultSource [] _ []
      (("a").toList) (("1.2.3").toList) [] (by decide) (by decide)).1
      (by decide) lookupTrap,
   (gem_line_pin_iff_contains defaultSource [] _ []
      (("b").toList) (("beta").toList) [] (by decide) (by decide)).2
      (by decide) lookupTrap⟩

/-- Claim C4, counterexample: a tab-indented `gem` line is ignored (the
stripping loop removes only spaces), while the same line unindented is
recognized; under the claim both manifests would parse to the same single
gem. -/
theorem tab_indent_counterexample :
    GemfileData.parse lookupTrap (("\tgem \"a\", \"1.2.3\"").toList)
        = Except.ok ⟨defaultSource, []⟩ ∧
      GemfileData.parse lookupTrap (("gem \"a\", \"1.2.3\"").toList)
        = Except.ok ⟨defaultSource, [⟨("a").toList, ("1.2.3").toList⟩]⟩ :=
  ⟨rfl, rfl⟩

/-- Claim C4 (amended): any run of leading space characters (U+0020) is
stripped before a line is matched, so a space-indented directive line is
processed exactly like the unindented line; other whitespace, such as a tab,
is not stripped. -/
theorem parse_indent_spaces (lookup : Lookup) (source : List Char)
    (gems : List Gem) (n : Nat) (line : List Char) (rest : List (List Char)) :
    parseLines lookup source gems ((List.replicate n ' ' ++ line) :: rest)
      = parseLines lookup source gems (line :: rest) := by
  simp only [parseLines, stripLine_replicate]

/-- Claim C5: if the line scan reaches an unpinned gem line (after any prefix
of lines that processed successfully) and the lookup collaborator returns an
error for that package, the whole parse fails with that error: no partial
gem list is returned, and the remaining lines are not processed. -/
theorem parse_lookup_error_failfast (lookup : Lookup) (data : List Char)
    (pre rest : List (List Char)) (line : List Char)
    (src : List Char) (gems : List Gem)
    (s0 : List Char) (t : List (List Char)) (e : List Char)
    (hlines : rustLines data = pre ++ line :: rest)
    (hpre : parseLines lookup defaultSource [] pre = Except.ok (src, gems))
    (hgem : gemKeyword.isPrefixOf (stripLine line) = true)
    (hsplit : splitOnChar ',' (gemTrim (stripLine line)) = s0 :: t)
    (hnopin : pinnedVersion? t = none)
    (hlookup : lookup src s0 = Except.error e) :
    GemfileData.parse lookup data = Except.error e := by
  have hstep := parseLines_unpinned_error lookup src gems line rest s0 t e
    hgem hsplit hnopin hlookup
  unfold GemfileData.parse
  rw [hlines, parseLines_append]
  simp [hpre, hstep]

/-- Witness for claim C5 at the one-line manifest `gem "foo"` with an
always-failing lookup collaborator. -/
theorem parse_lookup_error_failfast_witness :
    GemfileData.parse lookupTrap (("gem \"foo\"").toList)
      = Except.error (("lookup was called").toList) :=
  parse_lookup_error_failfast lookupTrap (("gem \"foo\"").toList)
    [] [] (("gem \"foo\"").toList) defaultSource []
    (("foo").toList) [] (("lookup was called").toList)
    rfl rfl (by decide) (by decide) rfl rfl

/-- Claim C8: a response status other than 200 makes `download_gem` return
the `Failed to download` error; no archive path is produced. -/
theorem download_gem_non200 (http : Http) (directory : FsPath)
    (source : List Char) (gem : Gem)
    (h : (http (downloadUrl source gem)).status ≠ 200) :
    download_gem http directory source gem
      = Except.error (("Failed to download").toList) := by
  unfold download_gem
  rw [if_pos h]

/-- Witness for claim C8 at a 404 response. -/
theorem download_gem_non200_witness :
    download_gem http404 [] (("https://rubygems.org").toList)
        ⟨("rake").toList, ("13.0.1").toList⟩
      = Except.error (("Failed to download").toList) :=
  download_gem_non200 http404 [] (("https://rubygems.org").toList)
    ⟨("rake").toList, ("13.0.1").toList⟩ (by decide)

/-- A fold that replaces the accumulator whenever the test holds computes
the last match (searched as the first match of the reversed list), keeping
the initial accumulator when nothing matches. -/
theorem foldl_last_match {α β : Type} (q : α → Bool) (g : α → β)
    (f : Option β → α → Option β)
    (hf : ∀ acc e, f acc e = if q e then some (g e) else acc) :
    ∀ (l : List α) (acc : Option β),
      l.foldl f acc
        = match l.reverse.find? q with
          | some e => some (g e)
          | none => acc := by
  intro l
  induction l with
  | nil => intro acc; rfl
  | cons e t ih =>
    intro acc
    rw [List.foldl_cons, ih, List.reverse_cons, List.find?_append]
    cases hfind : t.reverse.find? q with
    | some x => simp
    | none =>
      rw [hf]
      by_cases hq : q e = true
      · simp [hq]
      · simp [hq, Bool.of_not_eq_true hq]

/-- The update function of the `unpack_tar` fold, written as a single
conditional. -/
theorem unpack_tar_fold_shape (directory : FsPath) (acc : Option FsPath)
    (entry : FsPath) :
    (match (directory ++ entry).getLast? with
      | some fname =>
        if fname == gemfileFileName then some (directory ++ entry) else acc
      | none => acc)
      = if ((directory ++ entry).getLast? == some gemfileFileName)
        then some (directory ++ entry) else acc := by
  cases h : (directory ++ entry).getLast? with
  | none => rfl
  | some f => rfl

/-- `find?` only looks at the values of the test on the list members. -/
theorem find?_congr_mem {α : Type} (p q : α → Bool) :
    ∀ (l : List α), (∀ a ∈ l, p a = q a) → l.find? p = l.find? q := by
  intro l
  induction l with
  | nil => intro _; rfl
  | cons a t ih =>
    intro h
    rw [List.find?_cons, List.find?_cons, h a (by simp),
      ih (fun b hb => h b (by simp [hb]))]

/-- Claim C6: when the tar collaborator delivers the entries (all nonempty
relative paths), `unpack_tar` returns exactly the last entry whose final
path component is `Gemfile`, mapped to its destination under the target
directory, and returns `some` exactly when at least one such entry exists. -/
theorem unpack_tar_last_gemfile (tarEntries : TarEntries)
    (tar_path directory : FsPath) (entries : List FsPath)
    (hE : tarEntries tar_path = Except.ok entries)
    (hne : ∀ e ∈ entries, e ≠ []) :
    unpack_tar tarEntries tar_path directory
      = Except.ok ((entries.reverse.find?
          (fun e => e.getLast? == some gemfileFileName)).map
          (fun e => directory ++ e)) ∧
    ((∃ p, unpack_tar tarEntries tar_path directory = Except.ok (some p))
      ↔ ∃ e ∈ entries, e.getLast? = some gemfileFileName) := by
  have hfold := foldl_last_match
    (fun e => (directory ++ e).getLast? == some gemfileFileName)
    (fun e => directory ++ e) _
    (fun acc e => unpack_tar_fold_shape directory acc e) entries none
  have hq : ∀ e ∈ entries.reverse,
      ((directory ++ e).getLast? == some gemfileFileName)
        = (e.getLast? == some gemfileFileName) := by
    intro e he
    rw [List.getLast?_append_of_ne_nil directory (hne e (List.mem_reverse.mp he))]
  have hmain : unpack_tar tarEntries tar_path directory
      = Except.ok ((entries.reverse.find?
          (fun e => e.getLast? == some gemfileFileName)).map
          (fun e => directory ++ e)) := by
    simp only [unpack_tar, hE]
    rw [hfold, find?_congr_mem _ _ _ hq]
    cases entries.reverse.find? (fun e => e.getLast? == some gemfileFileName) with
    | none => rfl
    | some x => rfl
  refine ⟨hmain, ?_, ?_⟩
  · rintro ⟨p, hp⟩
    rw [hmain] at hp
    cases hfind : entries.reverse.find?
        (fun e => e.getLast? == some gemfileFileName) with
    | none => rw [hfind] at hp; simp at hp
    | some x =>
      have hx := List.find?_some hfind
      have hmem := List.mem_of_find?_eq_some hfind
      exact ⟨x, List.mem_reverse.mp hmem, by simpa using hx⟩
  · rintro ⟨e, he, hlast⟩
    have hsome : (entries.reverse.find?
        (fun e => e.getLast? == some gemfileFileName)).isSome := by
      rw [List.find?_isSome]
      exact ⟨e, List.mem_reverse.mpr he, by simp [hlast]⟩
    cases hfind : entries.reverse.find?
        (fun e => e.getLast? == some gemfileFileName) with
    | none => rw [hfind] at hsome; simp at hsome
    | some x =>
      refine ⟨directory ++ x, ?_⟩
      rw [hmain, hfind]
      rfl

/-- Witness for claim C6: the nested `lib/Gemfile` entry is discovered and
reported at its destination under the install directory. -/
theorem unpack_tar_last_gemfile_witness :
    unpack_tar tarExample [("data.tar").toList] [("inst").toList]
      = Except.ok (some [("inst").toList, ("lib").toList, gemfileFileName]) :=
  ((unpack_tar_last_gemfile tarExample [("data.tar").toList] [("inst").toList]
      [[("lib").toList, gemfileFileName], [("x").toList]]
      rfl (by decide)).1).trans rfl

/-- Claim C7: with the outer archive's entries delivered by the tar
collaborator, `unpack_gem` fails with `data.tar.gz not found` exactly when
no entry is named `data.tar.gz` directly under the scratch directory, and
otherwise returns the path of that entry inside the scratch directory; and
a pipeline whose `unpack_gem` stage fails contributes nothing at all. -/
theorem unpack_gem_requires_data (C : Collabs)
    (path directory install_dictionary cache_directory : FsPath)
    (source : List Char) (gem : Gem) (entries : List FsPath)
    (p : FsPath) (st msg : List Char) :
    (C.archiveEntries path = Except.ok entries →
      [gemDataFile] ∉ entries →
      unpack_gem C.archiveEntries path directory
        = Except.error (("data.tar.gz not found").toList)) ∧
    (C.archiveEntries path = Except.ok entries →
      [gemDataFile] ∈ entries →
      unpack_gem C.archiveEntries path directory
        = Except.ok (directory ++ [gemDataFile])) ∧
    (download_gem C.http cache_directory source gem = Except.ok p →
      fileStem p = some st →
      unpack_gem C.archiveEntries p (cache_directory ++ [st])
        = Except.error msg →
      gemTask C install_dictionary cache_directory source gem = ⟨[], []⟩) := by
  refine ⟨?_, ?_, ?_⟩
  · intro hE hmem
    have hc : entries.contains [gemDataFile] = false := by
      rw [Bool.eq_false_iff]
      intro hcontra
      exact hmem (List.elem_iff.mp hcontra)
    simp only [unpack_gem, hE, hc]
    rfl
  · intro hE hmem
    have hc : entries.contains [gemDataFile] = true := List.elem_iff.mpr hmem
    simp only [unpack_gem, hE, hc]
    rfl
  · intro hdl hstem hgz
    simp only [gemTask, hdl, hstem, hgz]

/-- Witness for claim C7: without a `data.tar.gz` entry the extraction
fails and the pipeline records nothing; with the entry present its path is
returned. -/
theorem unpack_gem_requires_data_witness :
    (unpack_gem collabsNoData.archiveEntries [("a.gem").toList] [("d").toList]
        = Except.error (("data.tar.gz not found").toList)) ∧
    (unpack_gem (fun _ => Except.ok [[gemDataFile]])
        [("a.gem").toList] [("d").toList]
        = Except.ok ([("d").toList] ++ [gemDataFile])) ∧
    (gemTask collabsNoData [("inst").toList] [("cache").toList]
        (("s").toList) ⟨("a").toList, ("1.2.3").toList⟩ = ⟨[], []⟩) :=
  ⟨(unpack_gem_requires_data collabsNoData [("a.gem").toList] [("d").toList]
      [("inst").toList] [("cache").toList] (("s").toList)
      ⟨("a").toList, ("1.2.3").toList⟩ [] [] [] []).1 rfl (by decide),
   (unpack_gem_requires_data ⟨fun _ => ⟨200, []⟩, fun _ => Except.ok [[gemDataFile]], fun _ => Except.ok []⟩
      [("a.gem").toList] [("d").toList]
      [("inst").toList] [("cache").toList] (("s").toList)
      ⟨("a").toList, ("1.2.3").toList⟩ [[gemDataFile]] [] [] []).2.1 rfl (by decide),
   (unpack_gem_requires_data collabsNoData [("a.gem").toList] [("d").toList]
      [("inst").toList] [("cache").toList] (("s").toList)
      ⟨("a").toList, ("1.2.3").toList⟩ []
      ([("cache").toList] ++ [downloadFilename ⟨("a").toList, ("1.2.3").toList⟩])
      (("a-1.2.3").toList) (("data.tar.gz not found").toList)).2.2
      rfl rfl rfl⟩

/-- A successful download always returns the joined path
`directory/{name}-{version}.gem`. -/
theorem download_gem_ok_path (http : Http) (directory : FsPath)
    (source : List Char) (gem : Gem) (p : FsPath)
    (h : download_gem http directory source gem = Except.ok p) :
    p = directory ++ [downloadFilename gem] := by
  unfold download_gem at h
  split at h
  · exact absurd h (by simp)
  · exact (Except.ok.inj h).symm

/-- The file stem of a nonempty name extended with `.gem` is the name. -/
theorem stemOf_gem_ext (w : List Char) (hw : w ≠ []) :
    stemOf (w ++ (".gem").toList) = w := by
  obtain ⟨c, w2, rfl⟩ : ∃ c w2, w = c :: w2 := by
    cases w with
    | nil => exact absurd rfl hw
    | cons c w2 => exact ⟨c, w2, rfl⟩
  have hc1 : (((c :: w2) ++ (".gem").toList).contains '.') = true :=
    List.elem_iff.mpr (List.mem_append.mpr (Or.inr (by decide)))
  have hc2 : ((((c :: w2) ++ (".gem").toList).drop 1).contains '.') = true := by
    rw [List.cons_append]
    show ((w2 ++ (".gem").toList).contains '.') = true
    exact List.elem_iff.mpr (List.mem_append.mpr (Or.inr (by decide)))
  unfold stemOf
  rw [hc1, hc2]
  simp only [Bool.not_true, Bool.and_false, Bool.false_eq_true, if_false]
  unfold beforeLastDot
  rw [List.reverse_append]
  show ((c :: w2).reverse).reverse = c :: w2
  exact List.reverse_reverse _

/-- When every stage succeeds, the pipeline records exactly the file stem of
the downloaded archive, the string `{name}-{version}`. -/
theorem gemTask_installed_of_ok (C : Collabs)
    (install_dictionary cache_directory : FsPath)
    (source : List Char) (gem : Gem)
    (h : taskOk C install_dictionary cache_directory source gem = true) :
    (gemTask C install_dictionary cache_directory source gem).installed
      = [gem.name ++ ('-' :: gem.version)] := by
  cases hdl : download_gem C.http cache_directory source gem with
  | error e =>
    simp only [taskOk, hdl] at h
    exact Bool.noConfusion h
  | ok p =>
    have hp := download_gem_ok_path C.http cache_directory source gem p hdl
    subst hp
    have hw : gem.name ++ ('-' :: gem.version) ≠ [] := by
      cases gem.name <;> simp
    have hfn : downloadFilename gem
        = (gem.name ++ ('-' :: gem.version)) ++ (".gem").toList := by
      simp [downloadFilename, List.append_assoc]
    have hstem : fileStem (cache_directory ++ [downloadFilename gem])
        = some (gem.name ++ ('-' :: gem.version)) := by
      unfold fileStem
      rw [List.getLast?_concat]
      show some (stemOf (downloadFilename gem))
        = some (gem.name ++ ('-' :: gem.version))
      rw [hfn, stemOf_gem_ext _ hw]
    cases hgz : unpack_gem C.archiveEntries
        (cache_directory ++ [downloadFilename gem])
        (cache_directory ++ [gem.name ++ ('-' :: gem.version)]) with
    | error e =>
      simp only [taskOk, hdl, hstem, hgz] at h
      exact Bool.noConfusion h
    | ok gz =>
      cases htz : unpack_tar_gz C.tarEntries gz
          (cache_directory ++ [gem.name ++ ('-' :: gem.version)])
          (install_dictionary ++ [gem.name ++ ('-' :: gem.version)]) with
      | error e =>
        simp only [taskOk, hdl, hstem, hgz, htz] at h
        exact Bool.noConfusion h
      | ok tres => simp only [gemTask, hdl, hstem, hgz, htz]

/-- Reading a list back off by position reproduces the list. -/
theorem map_getD_range {α : Type} :
    ∀ (l : List α) (d : α),
      (List.range l.length).map (fun i => l.getD i d) = l
  | [], _ => rfl
  | a :: t, d => by
    rw [List.length_cons, List.range_succ_eq_map, List.map_cons, List.map_map]
    simp only [Function.comp_def, List.getD_cons_zero, List.getD_cons_succ]
    rw [map_getD_range t d]

/-- Reading a list back off by position, under any further map. -/
theorem map_getD_range_comp {α β : Type} (l : List α) (d : α) (g : α → β) :
    (List.range l.length).map (fun i => g (l.getD i d)) = l.map g := by
  have h : (fun i => g (l.getD i d)) = g ∘ (fun i => l.getD i d) := rfl
  rw [h, ← List.map_map, map_getD_range]

/-- Flattening singleton images is mapping. -/
theorem flatten_map_eq_map {α β : Type} (f : α → List β) (g : α → β) :
    ∀ (l : List α), (∀ x ∈ l, f x = [g x]) → (l.map f).flatten = l.map g := by
  intro l
  induction l with
  | nil => intro _; rfl
  | cons a t ih =>
    intro h
    rw [List.map_cons, List.flatten_cons, h a (by simp), List.map_cons,
      ih (fun x hx => h x (by simp [hx]))]
    rfl

/-- When every pipeline succeeds, the installed list is, up to the
completion order, the list of the per-package stems `{name}-{version}` in
manifest order. -/
theorem install_gems_installed_perm (C : Collabs)
    (orderInstalled orderGemfiles : List Nat) (gd : GemfileData)
    (install_dictionary cache_directory : FsPath)
    (hI : List.Perm orderInstalled (List.range gd.gems.length))
    (hok : ∀ gem ∈ gd.gems,
      taskOk C install_dictionary cache_directory gd.source gem = true) :
    List.Perm
      (install_gems C orderInstalled orderGemfiles gd install_dictionary
        cache_directory).install_gems
      (gd.gems.map (fun g => g.name ++ ('-' :: g.version))) := by
  have h1 : (install_gems C orderInstalled orderGemfiles gd install_dictionary
        cache_directory).install_gems
      = (orderInstalled.map (fun i =>
          ((gd.gems.map (gemTask C install_dictionary cache_directory
            gd.source)).getD i ⟨[], []⟩).installed)).flatten := rfl
  have hrange : (List.range gd.gems.length).map (fun i =>
        ((gd.gems.map (gemTask C install_dictionary cache_directory
          gd.source)).getD i ⟨[], []⟩).installed)
      = (gd.gems.map (gemTask C install_dictionary cache_directory
          gd.source)).map (fun r => r.installed) := by
    have hlen : gd.gems.length
        = (gd.gems.map (gemTask C install_dictionary cache_directory
            gd.source)).length := (List.length_map _ _).symm
    rw [hlen]
    exact map_getD_range_comp _ (⟨[], []⟩ : TaskResult) _
  have hsingles : ((gd.gems.map (gemTask C install_dictionary cache_directory
        gd.source)).map (fun r => r.installed)).flatten
      = gd.gems.map (fun g => g.name ++ ('-' :: g.version)) := by
    rw [List.map_map]
    exact flatten_map_eq_map _ _ _
      (fun g hg => gemTask_installed_of_ok C _ _ _ g (hok g hg))
  have hperm := (hI.map (fun i =>
      ((gd.gems.map (gemTask C install_dictionary cache_directory
        gd.source)).getD i ⟨[], []⟩).installed)).flatten
  rw [hrange, hsingles] at hperm
  rw [h1]
  exact hperm

/-- Claim C1, counterexample: a fully successful pipeline for the package
named `alpha` at version `1.2.3` records the string `alpha-1.2.3` (the file
stem of the downloaded archive), not the bare package name `alpha`, which
appears nowhere in the installed list. -/
theorem install_records_bare_name_counterexample :
    (install_gems collabsHappy [0] [0] gdExample instDir cacheDir).install_gems
        = [("alpha-1.2.3").toList] ∧
      ¬ ("alpha").toList ∈
        (install_gems collabsHappy [0] [0] gdExample instDir cacheDir).install_gems :=
  ⟨rfl, by decide⟩

/-- Claim C1 (amended): for every package whose pipeline succeeds,
`install_gems` records the file stem of the downloaded archive path — the
string `{name}-{version}` — so when all pipelines succeed the installed
list is, up to completion order, the list of those stems. -/
theorem install_gems_records_stems (C : Collabs)
    (orderInstalled orderGemfiles : List Nat) (gd : GemfileData)
    (install_dictionary cache_directory : FsPath)
    (hI : List.Perm orderInstalled (List.range gd.gems.length))
    (hok : ∀ gem ∈ gd.gems,
      taskOk C install_dictionary cache_directory gd.source gem = true) :
    List.Perm
      (install_gems C orderInstalled orderGemfiles gd install_dictionary
        cache_directory).install_gems
      (gd.gems.map (fun g => g.name ++ ('-' :: g.version))) :=
  install_gems_installed_perm C orderInstalled orderGemfiles gd
    install_dictionary cache_directory hI hok

/-- Witness for the amended claim C1 on the concrete one-gem run. -/
theorem install_gems_records_stems_witness :
    List.Perm
      (install_gems collabsHappy [0] [0] gdExample instDir cacheDir).install_gems
      (gdExample.gems.map (fun g => g.name ++ ('-' :: g.version))) :=
  install_gems_records_stems collabsHappy [0] [0] gdExample instDir cacheDir
    (List.Perm.refl [0]) (by decide)

/-- Claim C9: when all per-package pipelines succeed, the installed list has
exactly one entry per package — none missing, none duplicated — for every
completion order of the concurrent pipelines. -/
theorem install_gems_count (C : Collabs)
    (orderInstalled orderGemfiles : List Nat) (gd : GemfileData)
    (install_dictionary cache_directory : FsPath)
    (hI : List.Perm orderInstalled (List.range gd.gems.length))
    (hok : ∀ gem ∈ gd.gems,
      taskOk C install_dictionary cache_directory gd.source gem = true) :
    (install_gems C orderInstalled orderGemfiles gd install_dictionary
      cache_directory).install_gems.length = gd.gems.length := by
  rw [(install_gems_installed_perm C orderInstalled orderGemfiles gd
    install_dictionary cache_directory hI hok).length_eq, List.length_map]

/-- Witness for claim C9 on the concrete one-gem run. -/
theorem install_gems_count_witness :
    (install_gems collabsHappy [0] [0] gdExample instDir
      cacheDir).install_gems.length = 1 :=
  install_gems_count collabsHappy [0] [0] gdExample instDir cacheDir
    (List.Perm.refl [0]) (by decide)

/-- A pipeline pushes a discovered-Gemfile record only in the branch that
also pushes the installed name, and both carry the same `gem_name`. -/
theorem gemTask_gemfile_name_installed (C : Collabs)
    (install_dictionary cache_directory : FsPath) (source : List Char)
    (gem : Gem) (info : FindGemFileInfo)
    (h : info ∈ (gemTask C install_dictionary cache_directory source gem).gemfiles) :
    info.gem_name
      ∈ (gemTask C install_dictionary cache_directory source gem).installed := by
  cases hdl : download_gem C.http cache_directory source gem with
  | error e =>
    simp only [gemTask, hdl] at h
    exact absurd h (by simp)
  | ok p =>
    cases hstem : fileStem p with
    | none =>
      simp only [gemTask, hdl, hstem] at h
      exact absurd h (by simp)
    | some st =>
      cases hgz : unpack_gem C.archiveEntries p (cache_directory ++ [st]) with
      | error e =>
        simp only [gemTask, hdl, hstem, hgz] at h
        exact absurd h (by simp)
      | ok gz =>
        cases htz : unpack_tar_gz C.tarEntries gz (cache_directory ++ [st])
            (install_dictionary ++ [st]) with
        | error e =>
          simp only [gemTask, hdl, hstem, hgz, htz] at h
          exact absurd h (by simp)
        | ok tres =>
          simp only [gemTask, hdl, hstem, hgz, htz] at h ⊢
          cases tres with
          | none => exact absurd h (by simp)
          | some gf =>
            simp only [List.mem_singleton] at h
            rw [h]
            simp

/-- Claim C10: every package named in `find_gemfiles` is also named in
`install_gems` — a discovered-Gemfile record exists only for a package that
was recorded as installed. -/
theorem find_gemfiles_subset_installed (C : Collabs)
    (orderInstalled orderGemfiles : List Nat) (gd : GemfileData)
    (install_dictionary cache_directory : FsPath)
    (hI : List.Perm orderInstalled (List.range gd.gems.length))
    (info : FindGemFileInfo)
    (hmem : info ∈ (install_gems C orderInstalled orderGemfiles gd
        install_dictionary cache_directory).find_gemfiles) :
    info.gem_name ∈ (install_gems C orderInstalled orderGemfiles gd
        install_dictionary cache_directory).install_gems := by
  have hg : (install_gems C orderInstalled orderGemfiles gd
        install_dictionary cache_directory).find_gemfiles
      = (orderGemfiles.map (fun i =>
          ((gd.gems.map (gemTask C install_dictionary cache_directory
            gd.source)).getD i ⟨[], []⟩).gemfiles)).flatten := rfl
  have hi : (install_gems C orderInstalled orderGemfiles gd
        install_dictionary cache_directory).install_gems
      = (orderInstalled.map (fun i =>
          ((gd.gems.map (gemTask C install_dictionary cache_directory
            gd.source)).getD i ⟨[], []⟩).installed)).flatten := rfl
  rw [hg] at hmem
  rw [hi]
  rw [List.mem_flatten] at hmem
  obtain ⟨s, hs, hinfo⟩ := hmem
  rw [List.mem_map] at hs
  obtain ⟨i, hiord, rfl⟩ := hs
  cases hget : (gd.gems.map (gemTask C install_dictionary cache_directory
      gd.source))[i]? with
  | none =>
    have hd : (gd.gems.map (gemTask C install_dictionary cache_directory
        gd.source)).getD i ⟨[], []⟩ = ⟨[], []⟩ := by
      rw [List.getD_eq_getElem?_getD, hget]
      rfl
    rw [hd] at hinfo
    exact absurd hinfo (by simp)
  | some r =>
    have hd : (gd.gems.map (gemTask C install_dictionary cache_directory
        gd.source)).getD i ⟨[], []⟩ = r := by
      rw [List.getD_eq_getElem?_getD, hget]
      rfl
    rw [hd] at hinfo
    rw [List.getElem?_map] at hget
    cases hgem : gd.gems[i]? with
    | none =>
      rw [hgem] at hget
      exact absurd hget (by simp)
    | some gem =>
      rw [hgem] at hget
      have hr : r = gemTask C install_dictionary cache_directory
          gd.source gem := by
        simpa using hget.symm
      subst hr
      have hilt : i < gd.gems.length :=
        (List.getElem?_eq_some_iff.mp hgem).1
      have hiI : i ∈ orderInstalled :=
        hI.mem_iff.mpr (List.mem_range.mpr hilt)
      rw [List.mem_flatten]
      refine ⟨((gd.gems.map (gemTask C install_dictionary cache_directory
        gd.source)).getD i ⟨[], []⟩).installed, List.mem_map_of_mem _ hiI, ?_⟩
      rw [hd]
      exact gemTask_gemfile_name_installed C install_dictionary
        cache_directory gd.source gem info hinfo

/-- Witness for claim C10 on the concrete one-gem run, whose pipeline
discovers `lib/Gemfile`. -/
theorem find_gemfiles_subset_installed_witness :
    (⟨("alpha-1.2.3").toList,
        [("inst").toList, ("alpha-1.2.3").toList, ("lib").toList,
          gemfileFileName]⟩ : FindGemFileInfo).gem_name
      ∈ (install_gems collabsHappy [0] [0] gdExample instDir
          cacheDir).install_gems :=
  find_gemfiles_subset_installed collabsHappy [0] [0] gdExample instDir
    cacheDir (List.Perm.refl [0]) _ (by decide)
